import Mathlib

/-!
Verification of the cookiecutter-uv repository's dependency-update and
project-generation scripts, as a shallow embedding in Lean.

File contents are modelled as `List Char`.  The Python regular-expression
substitutions used by the updaters are deterministic on their patterns
(every quantifier in the patterns is bounded by a character class that
excludes the delimiter that follows it), so each pattern is embedded as an
explicit, executable matcher over character lists, and `re.subn` as a
leftmost, non-overlapping scan that restarts after each consumed match.
-/

namespace CookiecutterUv

/-- Boolean predicate: the character is not a double quote.
Embeds the regex character class `[^"]`. -/
def nq (c : Char) : Bool := c ≠ '"'

/-- Boolean predicate: the character is not a closing square bracket.
Embeds the regex character class `[^\]]`. -/
def nrb (c : Char) : Bool := c ≠ ']'

/-- Match a literal character sequence at the start of the input, returning
the remainder on success.  Embeds a `re.escape`d literal in a pattern. -/
def matchLit : List Char → List Char → Option (List Char)
  | [], s => some s
  | _ :: _, [] => none
  | c :: cs, d :: ds => if c = d then matchLit cs ds else none

theorem matchLit_length_le {xs s t : List Char} (h : matchLit xs s = some t) :
    t.length ≤ s.length := by
  induction xs generalizing s with
  | nil =>
    simp [matchLit] at h
    simp [h]
  | cons c cs ih =>
    cases s with
    | nil => simp [matchLit] at h
    | cons d ds =>
      simp only [matchLit] at h
      split at h
      · exact Nat.le_trans (ih h) (Nat.le_succ _)
      · exact absurd h (by simp)

theorem matchLit_self (xs t : List Char) : matchLit xs (xs ++ t) = some t := by
  induction xs with
  | nil => simp [matchLit]
  | cons c cs ih => simp [matchLit, ih]

theorem dropWhile_length_le (p : Char → Bool) (l : List Char) :
    (l.dropWhile p).length ≤ l.length := by
  induction l with
  | nil => simp
  | cons c cs ih =>
    by_cases h : p c
    · rw [List.dropWhile_cons_of_pos h]
      exact Nat.le_trans ih (Nat.le_succ _)
    · rw [List.dropWhile_cons_of_neg h]

/-- After the (optional) extras group, the pyproject pattern requires
`>=` followed by the version capture `([^"]+)` and a closing quote.
Returns `(version, rest)` on success. -/
def pyAfterGe : List Char → Option (List Char × List Char)
  | c1 :: c2 :: s =>
    if c1 = '>' then
      if c2 = '=' then
        match s.dropWhile nq with
        | c :: rest =>
          if s.takeWhile nq = [] then none
          else if c = '"' then some (s.takeWhile nq, rest) else none
        | [] => none
      else none
    else none
  | _ => none

theorem pyAfterGe_length_lt {s v rest : List Char} (h : pyAfterGe s = some (v, rest)) :
    rest.length < s.length := by
  match s with
  | [] => simp [pyAfterGe] at h
  | [c1] => simp [pyAfterGe] at h
  | c1 :: c2 :: s2 =>
    by_cases hc1 : c1 = '>'
    · by_cases hc2 : c2 = '='
      · cases hdw : s2.dropWhile nq with
        | nil => simp [pyAfterGe, hc1, hc2, hdw] at h
        | cons c rest' =>
          have hlen : (c :: rest').length ≤ s2.length := by
            rw [← hdw]; exact dropWhile_length_le _ _
          by_cases hv : s2.takeWhile nq = []
          · simp [pyAfterGe, hc1, hc2, hdw, hv] at h
          · by_cases hq : c = '"'
            · have hr : rest = rest' := by
                simp [pyAfterGe, hc1, hc2, hdw, hv, hq] at h
                exact h.2.symm
              subst hr
              simp only [List.length_cons] at hlen ⊢
              omega
            · simp [pyAfterGe, hc1, hc2, hdw, hv, hq] at h
      · simp [pyAfterGe, hc1, hc2] at h
    · simp [pyAfterGe, hc1] at h

/-- Attempt to match the `PyprojectTomlUpdater` pattern
`("pkg(?:\[[^\]]*\])?)>=([^"]+)"` at the start of the input.
On success, returns `(group1, oldVersion, rest)` where `group1` is the text
captured by the first group (opening quote, package name, optional extras)
and `rest` is the input remaining after the whole match. -/
def pyMatchAt (pkg : List Char) (s : List Char) : Option (List Char × List Char × List Char) :=
  match s with
  | [] => none
  | c :: s1 =>
    if c = '"' then
      match matchLit pkg s1 with
      | none => none
      | some s2 =>
        match s2 with
        | [] => none
        | d :: s3 =>
          if d = '[' then
            match s3.dropWhile nrb with
            | e :: s5 =>
              if e = ']' then
                match pyAfterGe s5 with
                | some (v, rest) => some ('"' :: pkg ++ '[' :: s3.takeWhile nrb ++ [']'], v, rest)
                | none => none
              else none
            | [] => none
          else
            match pyAfterGe s2 with
            | some (v, rest) => some ('"' :: pkg, v, rest)
            | none => none
    else none

theorem pyMatchAt_length_lt {pkg s g1 v rest : List Char}
    (h : pyMatchAt pkg s = some (g1, v, rest)) : rest.length < s.length := by
  match s with
  | [] => simp [pyMatchAt] at h
  | c :: s1 =>
    by_cases hc : c = '"'
    · cases hml : matchLit pkg s1 with
      | none => simp [pyMatchAt, hc, hml] at h
      | some s2 =>
        have hs2 : s2.length ≤ s1.length := matchLit_length_le hml
        cases s2 with
        | nil => simp [pyMatchAt, hc, hml] at h
        | cons d s3 =>
          by_cases hd : d = '['
          · cases hdw : s3.dropWhile nrb with
            | nil => simp [pyMatchAt, hc, hml, hd, hdw] at h
            | cons e s5 =>
              have h5 : (e :: s5).length ≤ s3.length := by
                rw [← hdw]; exact dropWhile_length_le _ _
              by_cases he : e = ']'
              · cases hge : pyAfterGe s5 with
                | none => simp [pyMatchAt, hc, hml, hd, hdw, he, hge] at h
                | some pr =>
                  obtain ⟨v', rest'⟩ := pr
                  have hrl := pyAfterGe_length_lt hge
                  have hr : rest = rest' := by
                    simp [pyMatchAt, hc, hml, hd, hdw, he, hge] at h
                    exact h.2.2.symm
                  subst hr
                  simp only [List.length_cons] at h5 hs2 ⊢
                  omega
              · simp [pyMatchAt, hc, hml, hd, hdw, he] at h
          · cases hge : pyAfterGe (d :: s3) with
            | none => simp [pyMatchAt, hc, hml, hd, hge] at h
            | some pr =>
              obtain ⟨v', rest'⟩ := pr
              have hrl := pyAfterGe_length_lt hge
              have hr : rest = rest' := by
                simp [pyMatchAt, hc, hml, hd, hge] at h
                exact h.2.2.symm
              subst hr
              simp only [List.length_cons] at hrl hs2 ⊢
              omega
    · simp [pyMatchAt, hc] at h

/-!
### Generic substitution engine

All three updater patterns are deterministic, so `re.subn` is embedded once,
generically over a `Matcher` that, at a given position, either fails or
returns the full replacement text for the matched span together with the
input remaining after the span.  Matching scans left to right and restarts
after each consumed match (non-overlapping), exactly as `re.subn` does.
The engine recurses on an explicit fuel (initialised to the input length,
which the `Shrinking` property shows is always enough) so that it is
structurally recursive and evaluates by kernel reduction.
-/

/-- A position matcher: `none` if the pattern does not match here, otherwise
`some (replacement, rest)` where `replacement` is the substituted text for
the matched span and `rest` the input after the span. -/
def Matcher := List Char → Option (List Char × List Char)

/-- Every successful match consumes at least one character. -/
def Shrinking (m : Matcher) : Prop :=
  ∀ s r rest, m s = some (r, rest) → rest.length < s.length

/-- Fuelled core of the substitution scan. -/
def subnFuel (m : Matcher) : Nat → List Char → List Char × Nat
  | _, [] => ([], 0)
  | 0, _ :: _ => ([], 0)
  | fuel + 1, c :: cs =>
    match m (c :: cs) with
    | some (r, rest) =>
      let p := subnFuel m fuel rest
      (r ++ p.1, p.2 + 1)
    | none =>
      let p := subnFuel m fuel cs
      (c :: p.1, p.2)

/-- Embedding of `re.subn`: returns the substituted content and the number
of (non-overlapping, leftmost) matches replaced. -/
def subn (m : Matcher) (s : List Char) : List Char × Nat := subnFuel m s.length s

/-- Embedding of `re.search` (as a Boolean): does the pattern match at some
position of the content? -/
def searchB (m : Matcher) : List Char → Bool
  | [] => false
  | c :: cs => (m (c :: cs)).isSome || searchB m cs

theorem subnFuel_irrel {m : Matcher} (hm : Shrinking m) :
    ∀ f1 f2 s, s.length ≤ f1 → s.length ≤ f2 → subnFuel m f1 s = subnFuel m f2 s := by
  intro f1
  induction f1 with
  | zero =>
    intro f2 s h1 _
    have : s = [] := List.eq_nil_of_length_eq_zero (Nat.le_zero.mp h1)
    subst this
    cases f2 <;> rfl
  | succ f1 ih =>
    intro f2 s h1 h2
    cases s with
    | nil => cases f2 <;> rfl
    | cons c cs =>
      cases f2 with
      | zero => simp at h2
      | succ g =>
        simp only [subnFuel]
        cases hmc : m (c :: cs) with
        | some pr =>
          obtain ⟨r, rest⟩ := pr
          have hlt := hm _ _ _ hmc
          simp only [List.length_cons] at h1 h2 hlt
          dsimp only
          rw [ih g rest (by omega) (by omega)]
        | none =>
          simp only [List.length_cons] at h1 h2
          dsimp only
          rw [ih g cs (by omega) (by omega)]

theorem subn_nil (m : Matcher) : subn m [] = ([], 0) := rfl

theorem subn_cons_some {m : Matcher} (hm : Shrinking m) {c : Char} {cs r rest : List Char}
    (h : m (c :: cs) = some (r, rest)) :
    subn m (c :: cs) = (r ++ (subn m rest).1, (subn m rest).2 + 1) := by
  have hlt := hm _ _ _ h
  simp only [List.length_cons] at hlt
  simp only [subn, List.length_cons, subnFuel, h]
  rw [subnFuel_irrel hm cs.length rest.length rest (by omega) (by omega)]

theorem subn_cons_none {m : Matcher} {c : Char} {cs : List Char}
    (h : m (c :: cs) = none) :
    subn m (c :: cs) = (c :: (subn m cs).1, (subn m cs).2) := by
  simp only [subn, List.length_cons, subnFuel, h]

theorem search_false_subn {m : Matcher} {s : List Char}
    (h : searchB m s = false) : subn m s = (s, 0) := by
  induction s with
  | nil => rfl
  | cons c cs ih =>
    simp only [searchB, Bool.or_eq_false_iff] at h
    have hnone : m (c :: cs) = none := by
      cases hmc : m (c :: cs) with
      | none => rfl
      | some pr => rw [hmc] at h; simp at h
    rw [subn_cons_none hnone, ih h.2]

theorem subn_pos_iff_search {m : Matcher} (hm : Shrinking m) (s : List Char) :
    0 < (subn m s).2 ↔ searchB m s = true := by
  have key : ∀ n s, List.length s ≤ n → (0 < (subn m s).2 ↔ searchB m s = true) := by
    intro n
    induction n with
    | zero =>
      intro s hs
      have : s = [] := List.eq_nil_of_length_eq_zero (Nat.le_zero.mp hs)
      subst this
      simp [subn_nil, searchB]
    | succ n ih =>
      intro s hs
      cases s with
      | nil => simp [subn_nil, searchB]
      | cons c cs =>
        cases hmc : m (c :: cs) with
        | some pr =>
          obtain ⟨r, rest⟩ := pr
          rw [subn_cons_some hm hmc]
          simp [searchB, hmc]
        | none =>
          rw [subn_cons_none hmc]
          simp only [List.length_cons] at hs
          simp [searchB, hmc, ih cs (by omega)]
  exact key s.length s (Nat.le_refl _)

/-!
### The pyproject updater
-/

/-- The matcher/replacer for `PyprojectTomlUpdater`: pattern
`("pkg(?:\[[^\]]*\])?)>=([^"]+)"` with replacement `\g<1>>={version}"`. -/
def pyRepl (pkg ver : List Char) : Matcher := fun s =>
  match pyMatchAt pkg s with
  | some (g1, _, rest) => some (g1 ++ '>' :: '=' :: (ver ++ ['"']), rest)
  | none => none

theorem pyRepl_shrinking (pkg ver : List Char) : Shrinking (pyRepl pkg ver) := by
  intro s r rest h
  simp only [pyRepl] at h
  cases hmc : pyMatchAt pkg s with
  | none => rw [hmc] at h; exact absurd h (by simp)
  | some pr =>
    obtain ⟨g1, v, rest'⟩ := pr
    rw [hmc] at h
    simp only [Option.some.injEq, Prod.mk.injEq] at h
    rw [← h.2]
    exact pyMatchAt_length_lt hmc

/-- Embedding of the `re.subn` call in `PyprojectTomlUpdater._update_file`. -/
def pySubn (pkg ver s : List Char) : List Char × Nat := subn (pyRepl pkg ver) s

/-- Embedding of the `re.search` call in `PyprojectTomlUpdater._matches`. -/
def pySearch (pkg s : List Char) : Bool := searchB (pyRepl pkg []) s

theorem pySearch_eq_searchB (pkg ver s : List Char) :
    pySearch pkg s = searchB (pyRepl pkg ver) s := by
  induction s with
  | nil => rfl
  | cons c cs ih =>
    simp only [pySearch, searchB, pyRepl] at *
    rw [← ih]
    cases pyMatchAt pkg (c :: cs) <;> simp

/-- Embedding of `PyprojectTomlUpdater._update_file`: substitute, and write
back (returning `true`) exactly when the match count is positive and the new
content differs from the old.  Returns the file's resulting content and the
written flag. -/
def update_file (pkg ver content : List Char) : List Char × Bool :=
  let r := pySubn pkg ver content
  if 0 < r.2 ∧ r.1 ≠ content then (r.1, true) else (content, false)

/-!
### Structure of a matched dependency entry
-/

/-- A quoted dependency entry `"pkg>=v"` as it appears in a manifest. -/
def pyEntry (pkg v : List Char) : List Char :=
  '"' :: pkg ++ '>' :: '=' :: (v ++ ['"'])

theorem takeWhile_nq_append {v : List Char} (t : List Char) (hv : '"' ∉ v) :
    (v ++ '"' :: t).takeWhile nq = v := by
  induction v with
  | nil => simp [List.takeWhile_cons_of_neg, nq]
  | cons a v' ih =>
    have ha : a ≠ '"' := fun h => hv (h ▸ List.mem_cons_self a v')
    have hv' : '"' ∉ v' := fun h => hv (List.mem_cons_of_mem a h)
    simp only [List.cons_append]
    rw [List.takeWhile_cons_of_pos (by simp [nq, ha]), ih hv']

theorem dropWhile_nq_append {v : List Char} (t : List Char) (hv : '"' ∉ v) :
    (v ++ '"' :: t).dropWhile nq = '"' :: t := by
  induction v with
  | nil => simp [List.dropWhile_cons_of_neg, nq]
  | cons a v' ih =>
    have ha : a ≠ '"' := fun h => hv (h ▸ List.mem_cons_self a v')
    have hv' : '"' ∉ v' := fun h => hv (List.mem_cons_of_mem a h)
    simp only [List.cons_append]
    rw [List.dropWhile_cons_of_pos (by simp [nq, ha]), ih hv']

theorem pyAfterGe_entry {v : List Char} (t : List Char) (hv1 : v ≠ []) (hv2 : '"' ∉ v) :
    pyAfterGe ('>' :: '=' :: (v ++ '"' :: t)) = some (v, t) := by
  simp only [pyAfterGe, if_pos rfl]
  rw [dropWhile_nq_append t hv2, takeWhile_nq_append t hv2]
  simp [hv1]

/-- The pyproject pattern matches a dependency entry placed at the start of
the input, capturing the version between `>=` and the closing quote. -/
theorem pyMatchAt_entry (pkg : List Char) {v : List Char} (t : List Char)
    (hv1 : v ≠ []) (hv2 : '"' ∉ v) :
    pyMatchAt pkg (pyEntry pkg v ++ t) = some ('"' :: pkg, v, t) := by
  have hshape : pyEntry pkg v ++ t = '"' :: (pkg ++ ('>' :: '=' :: (v ++ '"' :: t))) := by
    simp [pyEntry]
  rw [hshape]
  simp only [pyMatchAt, if_pos rfl, matchLit_self]
  rw [pyAfterGe_entry t hv1 hv2]
  simp

theorem pyRepl_entry (pkg ver : List Char) {v : List Char} (t : List Char)
    (hv1 : v ≠ []) (hv2 : '"' ∉ v) :
    pyRepl pkg ver (pyEntry pkg v ++ t) = some (pyEntry pkg ver, t) := by
  simp only [pyRepl, pyMatchAt_entry pkg t hv1 hv2]
  simp [pyEntry]

theorem pyEntry_ne {pkg v w : List Char} (hvw : v ≠ w) : pyEntry pkg v ≠ pyEntry pkg w := by
  intro h
  simp only [pyEntry, List.cons.injEq, true_and] at h
  have h2 := List.append_cancel_left h
  simp only [List.cons.injEq, true_and] at h2
  exact hvw (List.append_cancel_right h2)

/-- Splitting theorem for the pyproject substitution: if the content is an
isolated dependency entry surrounded by text in which no match starts, the
substitution rewrites exactly the entry's version and recurses into the
suffix. -/
theorem pySubn_split (pkg v ver post : List Char) (pre : List Char)
    (hv1 : v ≠ []) (hv2 : '"' ∉ v)
    (hpre : ∀ i < pre.length, pyMatchAt pkg ((pre ++ (pyEntry pkg v ++ post)).drop i) = none) :
    pySubn pkg ver (pre ++ (pyEntry pkg v ++ post))
      = (pre ++ (pyEntry pkg ver ++ (pySubn pkg ver post).1), (pySubn pkg ver post).2 + 1) := by
  induction pre with
  | nil =>
    simp only [List.nil_append]
    have hshape : pyEntry pkg v ++ post = '"' :: (pkg ++ ('>' :: '=' :: (v ++ '"' :: post))) := by
      simp [pyEntry]
    have hrepl := pyRepl_entry pkg ver post hv1 hv2
    rw [hshape] at hrepl
    have := subn_cons_some (pyRepl_shrinking pkg ver) hrepl
    rw [hshape]
    simp only [pySubn] at *
    rw [this]
  | cons a pre' ih =>
    have h0 := hpre 0 (by simp)
    simp only [List.drop_zero, List.cons_append] at h0
    have hnone : pyRepl pkg ver (a :: (pre' ++ (pyEntry pkg v ++ post))) = none := by
      simp [pyRepl, h0]
    have hpre' : ∀ i < pre'.length,
        pyMatchAt pkg ((pre' ++ (pyEntry pkg v ++ post)).drop i) = none := by
      intro i hi
      have := hpre (i + 1) (by simp; omega)
      simpa using this
    simp only [pySubn, List.cons_append] at *
    rw [subn_cons_none hnone, ih hpre']

/-- C1: for a manifest whose text contains the (isolated) quoted dependency
entry `"pkg>=1.0.0"` for a tracked package `pkg`, running
`PyprojectTomlUpdater._update_file` with fetched version `2.0.0` writes the
file back with `"pkg>=2.0.0"` in place of the old entry and every character
outside the matched version token unchanged.  The hypotheses state that the
entry is the only place where the pattern matches (no match starts in the
preceding text and none exists in the following text), which is what makes
"the matched version token" well defined. -/
theorem c1_update_rewrites_entry (pkg pre post : List Char)
    (hpre : ∀ i < pre.length,
      pyMatchAt pkg ((pre ++ (pyEntry pkg "1.0.0".toList ++ post)).drop i) = none)
    (hpost : pySearch pkg post = false) :
    update_file pkg "2.0.0".toList (pre ++ (pyEntry pkg "1.0.0".toList ++ post))
      = (pre ++ (pyEntry pkg "2.0.0".toList ++ post), true) := by
  have hsplit := pySubn_split pkg "1.0.0".toList "2.0.0".toList post pre
    (by decide) (by decide) hpre
  have hps : pySubn pkg "2.0.0".toList post = (post, 0) :=
    search_false_subn (by rw [← pySearch_eq_searchB]; exact hpost)
  rw [hps] at hsplit
  have hne : pre ++ (pyEntry pkg "2.0.0".toList ++ post)
      ≠ pre ++ (pyEntry pkg "1.0.0".toList ++ post) := by
    intro h
    exact @pyEntry_ne pkg _ _ (by decide)
      (List.append_cancel_right (List.append_cancel_left h))
  unfold update_file
  rw [hsplit]
  simp [hne]
  exact pyEntry_ne (by decide)

/-- Witness for `c1_update_rewrites_entry` at a concrete manifest. -/
theorem c1_update_rewrites_entry_witness :
    update_file "pkg".toList "2.0.0".toList
        ("x ".toList ++ (pyEntry "pkg".toList "1.0.0".toList ++ " y".toList))
      = ("x ".toList ++ (pyEntry "pkg".toList "2.0.0".toList ++ " y".toList), true) :=
  c1_update_rewrites_entry "pkg".toList "x ".toList " y".toList (by decide) (by decide)

/-- C2 fails as stated: the substitution is not idempotent for every file
content.  On the content `"p["p>=x]y"]>=3"` with package `p` and fetched
version `2`, the first pass rewrites the inner entry, after which the
optional-extras group `(?:\[[^\]]*\])?` lets a second pass match a span that
did not match before, so the second pass changes the text again and the
second `_update_file` run writes the file (contributing 1, not 0, to the
update count). -/
theorem c2_counterexample :
    (pySubn "p".toList "2".toList
        ((pySubn "p".toList "2".toList "\"p[\"p>=x]y\"]>=3\"".toList).1)).1
      ≠ (pySubn "p".toList "2".toList "\"p[\"p>=x]y\"]>=3\"".toList).1
    ∧ (update_file "p".toList "2".toList
        ((pySubn "p".toList "2".toList "\"p[\"p>=x]y\"]>=3\"".toList).1)).2 = true := by
  decide

/-- C2 (amended): for content in which the tracked package's entry occurs as
a single isolated match (no pattern match starts in the surrounding text,
before or after the update, and versions are quote-free and nonempty),
applying the substitution twice with the same fetched version equals
applying it once, and the second `_update_file` run writes nothing and
contributes 0 to the update count. -/
theorem c2_amended_idempotent_on_isolated_entry (pkg v ver pre post : List Char)
    (hv1 : v ≠ []) (hv2 : '"' ∉ v) (hw1 : ver ≠ []) (hw2 : '"' ∉ ver)
    (hpre1 : ∀ i < pre.length, pyMatchAt pkg ((pre ++ (pyEntry pkg v ++ post)).drop i) = none)
    (hpre2 : ∀ i < pre.length, pyMatchAt pkg ((pre ++ (pyEntry pkg ver ++ post)).drop i) = none)
    (hpost : pySearch pkg post = false) :
    (pySubn pkg ver ((pySubn pkg ver (pre ++ (pyEntry pkg v ++ post))).1)).1
        = (pySubn pkg ver (pre ++ (pyEntry pkg v ++ post))).1
      ∧ update_file pkg ver ((pySubn pkg ver (pre ++ (pyEntry pkg v ++ post))).1)
        = ((pySubn pkg ver (pre ++ (pyEntry pkg v ++ post))).1, false) := by
  have hps : pySubn pkg ver post = (post, 0) :=
    search_false_subn (by rw [← pySearch_eq_searchB]; exact hpost)
  have h1 := pySubn_split pkg v ver post pre hv1 hv2 hpre1
  rw [hps] at h1
  have h2 := pySubn_split pkg ver ver post pre hw1 hw2 hpre2
  rw [hps] at h2
  have e1 : (pySubn pkg ver (pre ++ (pyEntry pkg v ++ post))).1
      = pre ++ (pyEntry pkg ver ++ post) := by rw [h1]
  rw [e1, h2]
  refine ⟨rfl, ?_⟩
  unfold update_file
  rw [h2]
  simp

/-- Witness for `c2_amended_idempotent_on_isolated_entry` at concrete content. -/
theorem c2_amended_idempotent_on_isolated_entry_witness :
    (pySubn "pkg".toList "3.1".toList
        ((pySubn "pkg".toList "3.1".toList
          ("a ".toList ++ (pyEntry "pkg".toList "1.0".toList ++ " b".toList))).1)).1
      = (pySubn "pkg".toList "3.1".toList
          ("a ".toList ++ (pyEntry "pkg".toList "1.0".toList ++ " b".toList))).1 :=
  (c2_amended_idempotent_on_isolated_entry "pkg".toList "1.0".toList "3.1".toList
    "a ".toList " b".toList (by decide) (by decide) (by decide) (by decide)
    (by decide) (by decide) (by decide)).1

/-!
### The `PyprojectTomlUpdater.update` driver

The driver iterates over the tracked packages; each package's version fetch
is modelled by supplying the fetch result (`Option` version) alongside the
package name.  Files live in a file system keyed by an opaque identity;
`none` means the file does not exist (`filepath.exists()` is false).
-/

/-- A file system: maps a file identity to its content, if it exists. -/
def FSys := Nat → Option (List Char)

/-- Write a file's content (`Path.write_text`). -/
def fsWrite (fs : FSys) (f : Nat) (c : List Char) : FSys :=
  fun g => if g = f then some c else fs g

/-- Inner loop of `PyprojectTomlUpdater.update` for one fetched package
version: skip missing files; in dry-run mode count files whose content
matches the pattern (`_matches`); otherwise run `_update_file`, counting and
keeping the write when it reports an update. -/
def processFiles (pkg ver : List Char) (files : List Nat) (fs : FSys) (dry : Bool) :
    FSys × Nat :=
  match files with
  | [] => (fs, 0)
  | f :: rest =>
    match fs f, dry with
    | none, _ => processFiles pkg ver rest fs dry
    | some c, true =>
      let r := processFiles pkg ver rest fs true
      (r.1, (if pySearch pkg c then 1 else 0) + r.2)
    | some c, false =>
      let u := update_file pkg ver c
      if u.2 then
        let r := processFiles pkg ver rest (fsWrite fs f u.1) false
        (r.1, 1 + r.2)
      else
        let r := processFiles pkg ver rest fs false
        (r.1, r.2)

/-- Embedding of `PyprojectTomlUpdater.update`: iterate over the tracked
packages with the given sequence of fetch results; a failed fetch logs a
warning and skips that package; counts accumulate across packages and
files. -/
def pyUpdate (fetched : List (List Char × Option (List Char))) (files : List Nat)
    (fs : FSys) (dry : Bool) : FSys × Nat :=
  match fetched with
  | [] => (fs, 0)
  | (_, none) :: rest => pyUpdate rest files fs dry
  | (pkg, some v) :: rest =>
    let r := processFiles pkg v files fs dry
    let r2 := pyUpdate rest files r.1 dry
    (r2.1, r.2 + r2.2)

theorem processFiles_dry_fs (pkg ver : List Char) (files : List Nat) (fs : FSys) :
    (processFiles pkg ver files fs true).1 = fs := by
  induction files with
  | nil => rfl
  | cons f rest ih =>
    simp only [processFiles]
    cases fs f <;> simp [ih]

theorem pyUpdate_dry_fs (F : List (List Char × Option (List Char))) (files : List Nat)
    (fs : FSys) : (pyUpdate F files fs true).1 = fs := by
  induction F generalizing fs with
  | nil => rfl
  | cons pv rest ih =>
    obtain ⟨pkg, vo⟩ := pv
    cases vo with
    | none => simp only [pyUpdate]; exact ih fs
    | some v =>
      simp only [pyUpdate]
      rw [processFiles_dry_fs]
      exact ih fs

theorem processFiles_isSome (pkg ver : List Char) (files : List Nat) (dry : Bool) :
    ∀ (fs : FSys) (g : Nat), ((processFiles pkg ver files fs dry).1 g).isSome = (fs g).isSome := by
  induction files with
  | nil => intro fs g; rfl
  | cons f rest ih =>
    intro fs g
    simp only [processFiles]
    cases hf : fs f with
    | none => cases dry <;> exact ih fs g
    | some c =>
      cases dry with
      | true => exact ih fs g
      | false =>
        dsimp only
        by_cases hu : (update_file pkg ver c).2 = true
        · rw [if_pos hu]
          dsimp only
          rw [ih]
          by_cases hg : g = f
          · subst hg
            simp [fsWrite, hf]
          · simp [fsWrite, hg]
        · rw [if_neg hu]
          exact ih fs g

theorem update_file_snd_iff (pkg ver c : List Char) :
    (update_file pkg ver c).2 = true
      ↔ (pySearch pkg c = true ∧ (pySubn pkg ver c).1 ≠ c) := by
  unfold update_file
  by_cases h : 0 < (pySubn pkg ver c).2 ∧ (pySubn pkg ver c).1 ≠ c
  · rw [if_pos h]
    constructor
    · intro _
      refine ⟨?_, h.2⟩
      rw [pySearch_eq_searchB pkg ver c]
      exact (subn_pos_iff_search (pyRepl_shrinking pkg ver) c).mp h.1
    · intro _
      rfl
  · rw [if_neg h]
    simp only [Bool.false_eq_true, false_iff]
    intro hcon
    apply h
    refine ⟨?_, hcon.2⟩
    apply (subn_pos_iff_search (pyRepl_shrinking pkg ver) c).mpr
    rw [← pySearch_eq_searchB pkg ver c]
    exact hcon.1

theorem update_file_fst_of_upd {pkg ver c : List Char}
    (h : (update_file pkg ver c).2 = true) :
    (update_file pkg ver c).1 = (pySubn pkg ver c).1 := by
  unfold update_file at *
  by_cases hc : 0 < (pySubn pkg ver c).2 ∧ (pySubn pkg ver c).1 ≠ c
  · rw [if_pos hc]
  · rw [if_neg hc] at h
    simp at h

/-- One fetched package's count is the same in a live run (on a possibly
already-modified file system `fsL`) as in a dry run on the original `fs0`,
provided every file's live content has the same match status as its
original content and every match actually changes the text. -/
theorem processFiles_count_eq (pkg v : List Char) (files : List Nat) (fs0 : FSys) :
    ∀ fsL : FSys, files.Nodup →
      (∀ g, (fs0 g).isSome = (fsL g).isSome) →
      (∀ f ∈ files, ∀ c0 cL, fs0 f = some c0 → fsL f = some cL →
        pySearch pkg cL = pySearch pkg c0
          ∧ (pySearch pkg c0 = true → (pySubn pkg v cL).1 ≠ cL)) →
      (processFiles pkg v files fsL false).2 = (processFiles pkg v files fs0 true).2 := by
  induction files with
  | nil => intro fsL _ _ _; rfl
  | cons f rest ih =>
    intro fsL hnd hsome Hf
    have hndr : rest.Nodup := (List.nodup_cons.mp hnd).2
    have hfnot : f ∉ rest := (List.nodup_cons.mp hnd).1
    have Hfr : ∀ g ∈ rest, ∀ c0 cL, fs0 g = some c0 → fsL g = some cL →
        pySearch pkg cL = pySearch pkg c0
          ∧ (pySearch pkg c0 = true → (pySubn pkg v cL).1 ≠ cL) :=
      fun g hg => Hf g (List.mem_cons_of_mem f hg)
    simp only [processFiles]
    cases hL : fsL f with
    | none =>
      have h0 : fs0 f = none := by
        have hs := hsome f
        rw [hL] at hs
        cases h0' : fs0 f
        · rfl
        · rw [h0'] at hs; simp at hs
      rw [h0]
      exact ih fsL hndr hsome Hfr
    | some cL =>
      have h0 : ∃ c0, fs0 f = some c0 := by
        have hs := hsome f
        rw [hL] at hs
        cases h0' : fs0 f
        · rw [h0'] at hs; simp at hs
        · exact ⟨_, rfl⟩
      obtain ⟨c0, h0⟩ := h0
      rw [h0]
      dsimp only
      obtain ⟨hseq, hchg⟩ := Hf f (List.mem_cons_self f rest) c0 cL h0 hL
      by_cases hs0 : pySearch pkg c0 = true
      · have hu : (update_file pkg v cL).2 = true :=
          (update_file_snd_iff pkg v cL).mpr ⟨by rw [hseq]; exact hs0, hchg hs0⟩
        rw [if_pos hu, if_pos hs0]
        have hsome' : ∀ g, (fs0 g).isSome = (fsWrite fsL f (update_file pkg v cL).1 g).isSome := by
          intro g
          by_cases hg : g = f
          · subst hg
            simp [fsWrite, h0]
          · simp only [fsWrite, if_neg hg]
            exact hsome g
        have Hf' : ∀ g ∈ rest, ∀ c0' cL', fs0 g = some c0' →
            fsWrite fsL f (update_file pkg v cL).1 g = some cL' →
            pySearch pkg cL' = pySearch pkg c0'
              ∧ (pySearch pkg c0' = true → (pySubn pkg v cL').1 ≠ cL') := by
          intro g hg c0' cL' h0' hL'
          have hg' : g ≠ f := fun he => hfnot (he ▸ hg)
          rw [fsWrite, if_neg hg'] at hL'
          exact Hfr g hg c0' cL' h0' hL'
        dsimp only
        rw [ih (fsWrite fsL f (update_file pkg v cL).1) hndr hsome' Hf']
      · have hs0' : pySearch pkg c0 = false := by
          revert hs0; cases pySearch pkg c0 <;> simp
        have hu : ¬ (update_file pkg v cL).2 = true := by
          intro hu'
          obtain ⟨ha, _⟩ := (update_file_snd_iff pkg v cL).mp hu'
          rw [hseq, hs0'] at ha
          exact absurd ha (by simp)
        rw [if_neg hu, if_neg hs0]
        dsimp only
        rw [ih fsL hndr hsome Hfr]
        omega

/-- The file-system effect of one fetched package in a live run. -/
def stepFS (pv : List Char × Option (List Char)) (files : List Nat) (fs : FSys) : FSys :=
  match pv.2 with
  | none => fs
  | some v => (processFiles pv.1 v files fs false).1

theorem pyUpdate_take_succ_fst (pv : List Char × Option (List Char))
    (rest : List (List Char × Option (List Char))) (files : List Nat) (fs : FSys) (k : Nat) :
    (pyUpdate ((pv :: rest).take (k + 1)) files fs false).1
      = (pyUpdate (rest.take k) files (stepFS pv files fs) false).1 := by
  obtain ⟨pkg, vo⟩ := pv
  cases vo <;> simp [pyUpdate, stepFS, List.take]

/-- Decidable step condition for the dry-run/live-run count equivalence: at
the `k`-th fetched package and file `f`, the live content (after the first
`k` live steps) has the same match status as the original content, and a
match implies the substitution changes the live content. -/
def stepOKb (F : List (List Char × Option (List Char))) (files : List Nat)
    (fs0 fsL : FSys) (k f : Nat) : Bool :=
  match F.get? k, fs0 f, (pyUpdate (F.take k) files fsL false).1 f with
  | some (pkg, some v), some c0, some ck =>
      (pySearch pkg ck == pySearch pkg c0)
        && (!(pySearch pkg c0) || decide ((pySubn pkg v ck).1 ≠ ck))
  | _, _, _ => true

theorem stepOKb_spec {F : List (List Char × Option (List Char))} {files : List Nat}
    {fs0 fsL : FSys} {k f : Nat} {pkg v c0 ck : List Char}
    (h : stepOKb F files fs0 fsL k f = true)
    (h1 : F.get? k = some (pkg, some v)) (h2 : fs0 f = some c0)
    (h3 : (pyUpdate (F.take k) files fsL false).1 f = some ck) :
    pySearch pkg ck = pySearch pkg c0
      ∧ (pySearch pkg c0 = true → (pySubn pkg v ck).1 ≠ ck) := by
  unfold stepOKb at h
  rw [h1, h2, h3] at h
  simp only [Bool.and_eq_true, beq_iff_eq, Bool.or_eq_true, Bool.not_eq_true',
    decide_eq_true_eq] at h
  obtain ⟨ha, hb⟩ := h
  refine ⟨ha, fun hs => ?_⟩
  cases hb with
  | inl hb => rw [hb] at hs; exact absurd hs (by simp)
  | inr hb => exact hb

theorem stepOKb_shift (pv : List Char × Option (List Char))
    (rest : List (List Char × Option (List Char))) (files : List Nat)
    (fs0 fsL : FSys) (k f : Nat) :
    stepOKb (pv :: rest) files fs0 fsL (k + 1) f
      = stepOKb rest files fs0 (stepFS pv files fsL) k f := by
  unfold stepOKb
  rw [List.get?_cons_succ, pyUpdate_take_succ_fst]

/-- Dry-run and live-run counts agree whenever every step's match status is
unaffected by the earlier live updates and every match actually changes the
text. -/
theorem pyUpdate_count_eq (files : List Nat) (hnd : files.Nodup) :
    ∀ (F : List (List Char × Option (List Char))) (fs0 fsL : FSys),
      (∀ g, (fs0 g).isSome = (fsL g).isSome) →
      (∀ k, k < F.length → ∀ f ∈ files, stepOKb F files fs0 fsL k f = true) →
      (pyUpdate F files fsL false).2 = (pyUpdate F files fs0 true).2 := by
  intro F
  induction F with
  | nil => intro fs0 fsL _ _; rfl
  | cons pv rest ih =>
    intro fs0 fsL hsome H
    obtain ⟨pkg, vo⟩ := pv
    cases vo with
    | none =>
      simp only [pyUpdate]
      apply ih fs0 fsL hsome
      intro k hk f hf
      have hstep := H (k + 1) (by simp only [List.length_cons]; omega) f hf
      rw [stepOKb_shift] at hstep
      simpa [stepFS] using hstep
    | some v =>
      simp only [pyUpdate]
      have Hf : ∀ f ∈ files, ∀ c0 cL, fs0 f = some c0 → fsL f = some cL →
          pySearch pkg cL = pySearch pkg c0
            ∧ (pySearch pkg c0 = true → (pySubn pkg v cL).1 ≠ cL) := by
        intro f hf c0 cL h0 hL
        have hb := H 0 (by simp) f hf
        exact stepOKb_spec hb (by simp) h0 (by simpa [pyUpdate] using hL)
      have hcount := processFiles_count_eq pkg v files fs0 fsL hnd hsome Hf
      have hfs1 : ∀ g, (fs0 g).isSome = ((processFiles pkg v files fsL false).1 g).isSome := by
        intro g
        rw [processFiles_isSome]
        exact hsome g
      have H' : ∀ k, k < rest.length → ∀ f ∈ files,
          stepOKb rest files fs0 (processFiles pkg v files fsL false).1 k f = true := by
        intro k hk f hf
        have hstep := H (k + 1) (by simp only [List.length_cons]; omega) f hf
        rw [stepOKb_shift] at hstep
        simpa [stepFS] using hstep
      rw [processFiles_dry_fs, hcount, ih fs0 (processFiles pkg v files fsL false).1 hfs1 H']

/-- C4: in a single `PyprojectTomlUpdater.update` run, a package whose
version fetch returns `None` is merely skipped (after a logged warning):
the run's result is the same as the run over the remaining packages, so
every other package whose fetch succeeded is still updated. -/
theorem c4_failed_fetch_skips (F1 F2 : List (List Char × Option (List Char)))
    (p : List Char) (files : List Nat) (fs : FSys) (dry : Bool) :
    pyUpdate (F1 ++ (p, none) :: F2) files fs dry = pyUpdate (F1 ++ F2) files fs dry := by
  induction F1 generalizing fs with
  | nil => simp [pyUpdate]
  | cons pv rest ih =>
    obtain ⟨pkg, vo⟩ := pv
    cases vo with
    | none =>
      simp only [List.cons_append, pyUpdate]
      exact ih fs
    | some v =>
      simp only [List.cons_append, pyUpdate]
      rw [show rest.append ((p, none) :: F2) = rest ++ (p, none) :: F2 from rfl, ih,
        show rest ++ F2 = rest.append F2 from rfl]

/-!
### The `ActionYmlUpdater` pattern

Pattern `(uv-version:\s*\n\s*description:[^\n]*\n\s*required:[^\n]*\n\s*default:\s*")`
`[0-9]+\.[0-9]+\.[0-9]+(")` with replacement `\g<1>{version}\2`.  Every
quantified piece is bounded by a character outside its class, so the match
is deterministic: `\s*\n\s*` is a maximal whitespace run that must contain a
newline and be followed directly by the next literal, `[^\n]*\n` runs to the
end of the line, and each digit run is maximal.
-/

/-- Python's `\s` class (ASCII part): space, tab, newline, CR, VT, FF. -/
def wsChar (c : Char) : Bool :=
  c = ' ' || c = '\t' || c = '\n' || c = '\r' || c = '\x0b' || c = '\x0c'

/-- Match a maximal digit run `[0-9]+`. -/
def digitRun (s : List Char) : Option (List Char × List Char) :=
  let d := s.takeWhile Char.isDigit
  if d = [] then none else some (d, s.dropWhile Char.isDigit)

/-- Match `[0-9]+\.[0-9]+\.[0-9]+`, returning the matched text and rest. -/
def semverAt (s : List Char) : Option (List Char × List Char) :=
  match digitRun s with
  | none => none
  | some (d1, s1) =>
    match s1 with
    | c :: s2 =>
      if c = '.' then
        match digitRun s2 with
        | none => none
        | some (d2, s3) =>
          match s3 with
          | c2 :: s4 =>
            if c2 = '.' then
              match digitRun s4 with
              | none => none
              | some (d3, s5) => some (d1 ++ '.' :: d2 ++ '.' :: d3, s5)
            else none
          | [] => none
      else none
    | [] => none

/-- Attempt to match the `ActionYmlUpdater.PATTERN` at the start of the
input.  Returns `(group1, oldVersion, rest)` on success. -/
def actionMatchAt (s : List Char) : Option (List Char × List Char × List Char) :=
  match matchLit "uv-version:".toList s with
  | none => none
  | some s1 =>
    let w1 := s1.takeWhile wsChar
    let t1 := s1.dropWhile wsChar
    if '\n' ∈ w1 then
      match matchLit "description:".toList t1 with
      | none => none
      | some s2 =>
        let l1 := s2.takeWhile (fun c => !(c = '\n'))
        match s2.dropWhile (fun c => !(c = '\n')) with
        | _ :: s3 =>
          let w2 := s3.takeWhile wsChar
          let t2 := s3.dropWhile wsChar
          match matchLit "required:".toList t2 with
          | none => none
          | some s4 =>
            let l2 := s4.takeWhile (fun c => !(c = '\n'))
            match s4.dropWhile (fun c => !(c = '\n')) with
            | _ :: s5 =>
              let w3 := s5.takeWhile wsChar
              let t3 := s5.dropWhile wsChar
              match matchLit "default:".toList t3 with
              | none => none
              | some s6 =>
                let w4 := s6.takeWhile wsChar
                match s6.dropWhile wsChar with
                | q :: s7 =>
                  if q = '"' then
                    match semverAt s7 with
                    | none => none
                    | some (ver, s8) =>
                      match s8 with
                      | q2 :: rest =>
                        if q2 = '"' then
                          some ("uv-version:".toList ++ w1 ++ "description:".toList
                              ++ l1 ++ '\n' :: w2 ++ "required:".toList ++ l2
                              ++ '\n' :: w3 ++ "default:".toList ++ w4 ++ ['"'],
                            ver, rest)
                        else none
                      | [] => none
                  else none
                | [] => none
            | [] => none
        | [] => none
    else none

/-- The matcher/replacer for `ActionYmlUpdater`: replacement
`\g<1>{version}\2`. -/
def actionRepl (ver : List Char) : Matcher := fun s =>
  match actionMatchAt s with
  | some (g1, _, rest) => some (g1 ++ ver ++ ['"'], rest)
  | none => none

/-- Embedding of the `re.subn` call in `ActionYmlUpdater._update_file`. -/
def actionSubn (ver s : List Char) : List Char × Nat := subn (actionRepl ver) s

/-- Embedding of the `re.search` call in `ActionYmlUpdater._matches`. -/
def actionSearch (s : List Char) : Bool := searchB (actionRepl []) s

theorem actionSearch_eq_searchB (ver s : List Char) :
    actionSearch s = searchB (actionRepl ver) s := by
  induction s with
  | nil => rfl
  | cons c cs ih =>
    simp only [actionSearch, searchB, actionRepl] at *
    rw [← ih]
    cases actionMatchAt (c :: cs) <;> simp

/-- Embedding of `ActionYmlUpdater._update_file`. -/
def action_update_file (ver content : List Char) : List Char × Bool :=
  let r := actionSubn ver content
  if 0 < r.2 ∧ r.1 ≠ content then (r.1, true) else (content, false)

/-- C7: for any file whose contents contain no match of the updater's
pattern, a non-dry-run update is a no-op and not an error: both
`PyprojectTomlUpdater._update_file` and `ActionYmlUpdater._update_file`
leave the content unchanged and report no update (so the file contributes 0
to the returned update count; the embedding is total, matching the absence
of raising constructs on this code path). -/
theorem c7_no_match_noop (pkg ver aver c ca : List Char)
    (hpy : pySearch pkg c = false) (hact : actionSearch ca = false) :
    update_file pkg ver c = (c, false) ∧ action_update_file aver ca = (ca, false) := by
  constructor
  · have hs : pySubn pkg ver c = (c, 0) :=
      search_false_subn (by rw [← pySearch_eq_searchB]; exact hpy)
    unfold update_file
    rw [hs]
    simp
  · have hs : actionSubn aver ca = (ca, 0) :=
      search_false_subn (by rw [← actionSearch_eq_searchB]; exact hact)
    unfold action_update_file
    rw [hs]
    simp

/-- Witness for `c7_no_match_noop` on concrete contents. -/
theorem c7_no_match_noop_witness :
    update_file "pkg".toList "2.0".toList "name = \"demo\"\n".toList
        = ("name = \"demo\"\n".toList, false)
      ∧ action_update_file "2.0.0".toList "inputs:\n  foo: 1\n".toList
        = ("inputs:\n  foo: 1\n".toList, false) :=
  c7_no_match_noop "pkg".toList "2.0".toList "2.0.0".toList
    "name = \"demo\"\n".toList "inputs:\n  foo: 1\n".toList (by decide) (by decide)

/-!
### The `PreCommitConfigUpdater`

Pattern `(- repo: {url}\s*\n\s*rev:\s*")[^"]+(")` with replacement
`\g<1>v{version}\2`, applied per hook to an in-memory copy of the config;
the file is written back once at the end, only if some hook updated.
-/

/-- Attempt to match the `PreCommitConfigUpdater` pattern for `url` at the
start of the input.  Returns `(group1, oldRev, rest)` on success. -/
def precommitMatchAt (url : List Char) (s : List Char) : Option (List Char × List Char × List Char) :=
  match matchLit ("- repo: ".toList ++ url) s with
  | none => none
  | some s1 =>
    let w1 := s1.takeWhile wsChar
    let t1 := s1.dropWhile wsChar
    if '\n' ∈ w1 then
      match matchLit "rev:".toList t1 with
      | none => none
      | some s2 =>
        let w2 := s2.takeWhile wsChar
        match s2.dropWhile wsChar with
        | q :: s3 =>
          if q = '"' then
            let rev := s3.takeWhile nq
            match s3.dropWhile nq with
            | q2 :: rest =>
              if q2 = '"' then
                if rev = [] then none
                else
                  some ("- repo: ".toList ++ url ++ w1 ++ "rev:".toList ++ w2 ++ ['"'],
                    rev, rest)
              else none
            | [] => none
          else none
        | [] => none
    else none

/-- The matcher/replacer for one hook of `PreCommitConfigUpdater`:
replacement `\g<1>v{version}\2`. -/
def precommitRepl (url ver : List Char) : Matcher := fun s =>
  match precommitMatchAt url s with
  | some (g1, _, rest) => some (g1 ++ 'v' :: ver ++ ['"'], rest)
  | none => none

/-- Embedding of the `re.subn` call in `PreCommitConfigUpdater._update_hook`. -/
def precommitSubn (url ver s : List Char) : List Char × Nat := subn (precommitRepl url ver) s

/-- Embedding of the `re.search` call in `PreCommitConfigUpdater._matches`. -/
def precommitSearch (url s : List Char) : Bool := searchB (precommitRepl url []) s

theorem precommitSearch_eq_searchB (url ver s : List Char) :
    precommitSearch url s = searchB (precommitRepl url ver) s := by
  induction s with
  | nil => rfl
  | cons c cs ih =>
    simp only [precommitSearch, searchB, precommitRepl] at *
    rw [← ih]
    cases precommitMatchAt url (c :: cs) <;> simp

/-- Embedding of `PreCommitConfigUpdater._update_hook`: substitute on the
in-memory content, reporting whether it changed. -/
def precommit_update_hook (url ver content : List Char) : List Char × Bool :=
  let r := precommitSubn url ver content
  if 0 < r.2 ∧ r.1 ≠ content then (r.1, true) else (content, false)

/-- The per-hook loop of `PreCommitConfigUpdater.update`, threading the
in-memory content and the update count.  In dry-run mode only `_matches` is
consulted and the content is never replaced. -/
def precommitLoop (dry : Bool) : List (List Char × Option (List Char)) →
    List Char × Nat → List Char × Nat
  | [], acc => acc
  | (url, vo) :: rest, (c, n) =>
    match vo with
    | none => precommitLoop dry rest (c, n)
    | some v =>
      match dry with
      | true => precommitLoop true rest (c, n + (if precommitSearch url c then 1 else 0))
      | false =>
        let u := precommit_update_hook url v c
        if u.2 then precommitLoop false rest (u.1, n + 1)
        else precommitLoop false rest (c, n)

/-- Embedding of `PreCommitConfigUpdater.update`: missing config short-
circuits with count 0; otherwise the hooks run over an in-memory copy and
the file is written back once, only when at least one hook updated.  The
result is `(final file content, update count, list of write_text calls)`. -/
def precommitUpdate (hooks : List (List Char × Option (List Char)))
    (cfg : Option (List Char)) (dry : Bool) :
    Option (List Char) × Nat × List (List Char) :=
  match cfg with
  | none => (none, 0, [])
  | some c0 =>
    let r := precommitLoop dry hooks (c0, 0)
    if dry = false ∧ 0 < r.2 then (some r.1, r.2, [r.1])
    else (cfg, r.2, [])

theorem precommitLoop_nomatch (c0 : List Char) :
    ∀ (hooks : List (List Char × Option (List Char))) (n : Nat),
      (∀ p ∈ hooks, p.2 = none ∨ precommitSearch p.1 c0 = false) →
      precommitLoop false hooks (c0, n) = (c0, n) := by
  intro hooks
  induction hooks with
  | nil => intro n _; rfl
  | cons p rest ih =>
    intro n h
    obtain ⟨url, vo⟩ := p
    cases vo with
    | none =>
      simp only [precommitLoop]
      exact ih n (fun q hq => h q (List.mem_cons_of_mem _ hq))
    | some v =>
      have hs : precommitSearch url c0 = false := by
        rcases h (url, some v) (List.mem_cons_self _ _) with h' | h'
        · exact absurd h' (by simp)
        · exact h'
      have hsub : precommitSubn url v c0 = (c0, 0) :=
        search_false_subn (by rw [← precommitSearch_eq_searchB]; exact hs)
      have hu : precommit_update_hook url v c0 = (c0, false) := by
        unfold precommit_update_hook
        rw [hsub]
        simp
      simp only [precommitLoop, hu]
      exact ih n (fun q hq => h q (List.mem_cons_of_mem _ hq))

/-- C10: a non-dry-run `PreCommitConfigUpdater.update` writes the config
file at most once per invocation; all hook substitutions act on an
in-memory copy and the file is written back only if at least one hook was
updated; if every fetch failed or no hook's pattern matched, the file is
unchanged and never written. -/
theorem c10_single_write (hooks : List (List Char × Option (List Char)))
    (cfg : Option (List Char)) :
    ((precommitUpdate hooks cfg false).2.2).length ≤ 1
      ∧ ((precommitUpdate hooks cfg false).2.1 = 0 →
          precommitUpdate hooks cfg false = (cfg, 0, []))
      ∧ (∀ c0, cfg = some c0 →
          (∀ p ∈ hooks, p.2 = none ∨ precommitSearch p.1 c0 = false) →
          precommitUpdate hooks cfg false = (cfg, 0, [])) := by
  refine ⟨?_, ?_, ?_⟩
  · unfold precommitUpdate
    cases cfg with
    | none => simp
    | some c0 =>
      dsimp only
      split
      · simp
      · simp
  · intro h0
    unfold precommitUpdate at *
    cases cfg with
    | none => rfl
    | some c0 =>
      dsimp only at *
      split at h0
      next hcond =>
        dsimp only at h0
        exact absurd (h0 ▸ hcond.2) (by simp)
      next hcond =>
        dsimp only at h0
        split
        next hcond2 => exact absurd hcond2 hcond
        next => rw [h0]
  · intro c0 hc0 hall
    subst hc0
    unfold precommitUpdate
    dsimp only
    rw [precommitLoop_nomatch c0 hooks 0 hall]
    simp

/-- Witness for `c10_single_write` at a concrete config and hook list. -/
theorem c10_single_write_witness :
    precommitUpdate [("https://example.com/x".toList, some "1.0".toList)]
        (some "repos: []\n".toList) false
      = (some "repos: []\n".toList, 0, []) :=
  (c10_single_write [("https://example.com/x".toList, some "1.0".toList)]
      (some "repos: []\n".toList)).2.2
    "repos: []\n".toList rfl (by decide)

/-!
### Dry-run versus live-run counts, for both updaters (claim C3)
-/

theorem matchLit_length_lt {xs s t : List Char} (hx : xs ≠ []) (h : matchLit xs s = some t) :
    t.length < s.length := by
  cases xs with
  | nil => exact absurd rfl hx
  | cons c cs =>
    cases s with
    | nil => simp [matchLit] at h
    | cons d ds =>
      simp only [matchLit] at h
      split at h
      · have := matchLit_length_le h
        simp only [List.length_cons]
        omega
      · exact absurd h (by simp)

theorem precommitMatchAt_length_lt {url s g rev rest : List Char}
    (h : precommitMatchAt url s = some (g, rev, rest)) : rest.length < s.length := by
  have hne : ("- repo: ".toList ++ url) ≠ [] := by
    intro he
    have hl := congrArg List.length he
    rw [List.length_append] at hl
    have h8 : "- repo: ".toList.length = 8 := rfl
    rw [h8] at hl
    simp at hl
  unfold precommitMatchAt at h
  cases hml : matchLit ("- repo: ".toList ++ url) s with
  | none => rw [hml] at h; exact absurd h (by simp)
  | some s1 =>
    rw [hml] at h
    dsimp only at h
    have hs1 : s1.length < s.length := matchLit_length_lt hne hml
    by_cases hw : '\n' ∈ s1.takeWhile wsChar
    · rw [if_pos hw] at h
      cases hr : matchLit "rev:".toList (s1.dropWhile wsChar) with
      | none => rw [hr] at h; exact absurd h (by simp)
      | some s2 =>
        rw [hr] at h
        dsimp only at h
        have ht1 : (s1.dropWhile wsChar).length ≤ s1.length := dropWhile_length_le _ _
        have hs2 : s2.length ≤ (s1.dropWhile wsChar).length := matchLit_length_le hr
        cases hq : s2.dropWhile wsChar with
        | nil => rw [hq] at h; exact absurd h (by simp)
        | cons q s3 =>
          rw [hq] at h
          dsimp only at h
          have h3 : (q :: s3).length ≤ s2.length := by
            rw [← hq]; exact dropWhile_length_le _ _
          by_cases hqq : q = '"'
          · rw [if_pos hqq] at h
            cases hq2 : s3.dropWhile nq with
            | nil => rw [hq2] at h; exact absurd h (by simp)
            | cons q2 rest' =>
              rw [hq2] at h
              dsimp only at h
              have h4 : (q2 :: rest').length ≤ s3.length := by
                rw [← hq2]; exact dropWhile_length_le _ _
              by_cases hq2q : q2 = '"'
              · rw [if_pos hq2q] at h
                by_cases hrev : s3.takeWhile nq = []
                · rw [if_pos hrev] at h; exact absurd h (by simp)
                · rw [if_neg hrev] at h
                  simp only [Option.some.injEq, Prod.mk.injEq] at h
                  rw [← h.2.2]
                  simp only [List.length_cons] at h3 h4 ⊢
                  omega
              · rw [if_neg hq2q] at h; exact absurd h (by simp)
          · rw [if_neg hqq] at h; exact absurd h (by simp)
    · rw [if_neg hw] at h; exact absurd h (by simp)

theorem precommitRepl_shrinking (url ver : List Char) : Shrinking (precommitRepl url ver) := by
  intro s r rest h
  simp only [precommitRepl] at h
  cases hmc : precommitMatchAt url s with
  | none => rw [hmc] at h; exact absurd h (by simp)
  | some pr =>
    obtain ⟨g1, rev, rest'⟩ := pr
    rw [hmc] at h
    simp only [Option.some.injEq, Prod.mk.injEq] at h
    rw [← h.2]
    exact precommitMatchAt_length_lt hmc

theorem precommit_update_hook_snd_iff (url ver c : List Char) :
    (precommit_update_hook url ver c).2 = true
      ↔ (precommitSearch url c = true ∧ (precommitSubn url ver c).1 ≠ c) := by
  unfold precommit_update_hook
  by_cases h : 0 < (precommitSubn url ver c).2 ∧ (precommitSubn url ver c).1 ≠ c
  · rw [if_pos h]
    constructor
    · intro _
      refine ⟨?_, h.2⟩
      rw [precommitSearch_eq_searchB url ver c]
      exact (subn_pos_iff_search (precommitRepl_shrinking url ver) c).mp h.1
    · intro _
      rfl
  · rw [if_neg h]
    simp only [Bool.false_eq_true, false_iff]
    intro hcon
    apply h
    refine ⟨?_, hcon.2⟩
    apply (subn_pos_iff_search (precommitRepl_shrinking url ver) c).mpr
    rw [← precommitSearch_eq_searchB url ver c]
    exact hcon.1

theorem precommit_update_hook_fst_false {url ver c : List Char}
    (h : ¬(precommit_update_hook url ver c).2 = true) :
    (precommit_update_hook url ver c).1 = c := by
  unfold precommit_update_hook at *
  by_cases hc : 0 < (precommitSubn url ver c).2 ∧ (precommitSubn url ver c).1 ≠ c
  · rw [if_pos hc] at h
    simp at h
  · rw [if_neg hc]

/-- The in-memory content after one hook of a live `PreCommitConfigUpdater`
run. -/
def precommitStepC (c : List Char) (p : List Char × Option (List Char)) : List Char :=
  match p.2 with
  | none => c
  | some v => (precommit_update_hook p.1 v c).1

/-- Decidable step condition for the pre-commit dry-run/live-run count
equivalence: at the `k`-th hook, the live content (the in-memory content
after the first `k` live steps) has the same match status as the original
content, and a match implies the substitution changes the live content. -/
def precommitStepOKb (hooks : List (List Char × Option (List Char)))
    (c0 cL : List Char) (k : Nat) : Bool :=
  match hooks.get? k with
  | some (url, some v) =>
    let ck := (hooks.take k).foldl precommitStepC cL
    (precommitSearch url ck == precommitSearch url c0)
      && (!(precommitSearch url c0) || decide ((precommitSubn url v ck).1 ≠ ck))
  | _ => true

theorem precommitStepOKb_shift (p : List Char × Option (List Char))
    (rest : List (List Char × Option (List Char))) (c0 cL : List Char) (k : Nat) :
    precommitStepOKb (p :: rest) c0 cL (k + 1)
      = precommitStepOKb rest c0 (precommitStepC cL p) k := rfl

theorem precommitStepOKb_spec {hooks : List (List Char × Option (List Char))}
    {c0 cL : List Char} {k : Nat} {url v : List Char}
    (h : precommitStepOKb hooks c0 cL k = true)
    (h1 : hooks.get? k = some (url, some v)) :
    precommitSearch url ((hooks.take k).foldl precommitStepC cL) = precommitSearch url c0
      ∧ (precommitSearch url c0 = true →
          (precommitSubn url v ((hooks.take k).foldl precommitStepC cL)).1
            ≠ (hooks.take k).foldl precommitStepC cL) := by
  unfold precommitStepOKb at h
  rw [h1] at h
  simp only [Bool.and_eq_true, beq_iff_eq, Bool.or_eq_true, Bool.not_eq_true',
    decide_eq_true_eq] at h
  obtain ⟨ha, hb⟩ := h
  refine ⟨ha, fun hs => ?_⟩
  cases hb with
  | inl hb => rw [hb] at hs; exact absurd hs (by simp)
  | inr hb => exact hb

/-- Dry-run and live-run hook counts agree whenever every hook's match
status is unaffected by the earlier live substitutions of the same run and
every match actually changes the content. -/
theorem precommitLoop_count_eq :
    ∀ (hooks : List (List Char × Option (List Char))) (c0 cL : List Char) (n : Nat),
      (∀ k, k < hooks.length → precommitStepOKb hooks c0 cL k = true) →
      (precommitLoop false hooks (cL, n)).2 = (precommitLoop true hooks (c0, n)).2 := by
  intro hooks
  induction hooks with
  | nil => intro c0 cL n _; rfl
  | cons p rest ih =>
    intro c0 cL n H
    obtain ⟨url, vo⟩ := p
    cases vo with
    | none =>
      simp only [precommitLoop]
      refine ih c0 cL n (fun k hk => ?_)
      have hst := H (k + 1) (by simp only [List.length_cons]; omega)
      rw [precommitStepOKb_shift] at hst
      simpa [precommitStepC] using hst
    | some v =>
      have h0 := precommitStepOKb_spec (H 0 (by simp))
        (show ((url, some v) :: rest).get? 0 = some (url, some v) from rfl)
      simp only [List.take_zero, List.foldl_nil] at h0
      obtain ⟨hseq, hchg⟩ := h0
      simp only [precommitLoop]
      by_cases hs0 : precommitSearch url c0 = true
      · have hu : (precommit_update_hook url v cL).2 = true :=
          (precommit_update_hook_snd_iff url v cL).mpr ⟨by rw [hseq]; exact hs0, hchg hs0⟩
        rw [if_pos hu, if_pos hs0]
        refine ih c0 ((precommit_update_hook url v cL).1) (n + 1) (fun k hk => ?_)
        have hst := H (k + 1) (by simp only [List.length_cons]; omega)
        rw [precommitStepOKb_shift] at hst
        simpa [precommitStepC] using hst
      · have hs0' : precommitSearch url c0 = false := by
          revert hs0; cases precommitSearch url c0 <;> simp
        have hu : ¬(precommit_update_hook url v cL).2 = true := by
          intro hu'
          have hcc := ((precommit_update_hook_snd_iff url v cL).mp hu').1
          rw [hseq, hs0'] at hcc
          exact absurd hcc (by simp)
        have hu1 : (precommit_update_hook url v cL).1 = cL :=
          precommit_update_hook_fst_false hu
        rw [if_neg hu, if_neg hs0]
        refine ih c0 cL n (fun k hk => ?_)
        have hst := H (k + 1) (by simp only [List.length_cons]; omega)
        rw [precommitStepOKb_shift] at hst
        simpa [precommitStepC, hu1] using hst

theorem precommitUpdate_count_live (hooks : List (List Char × Option (List Char)))
    (c0 : List Char) :
    (precommitUpdate hooks (some c0) false).2.1 = (precommitLoop false hooks (c0, 0)).2 := by
  unfold precommitUpdate
  dsimp only
  split
  · rfl
  · rfl

theorem precommitUpdate_dry (hooks : List (List Char × Option (List Char)))
    (cfg : Option (List Char)) :
    (precommitUpdate hooks cfg true).1 = cfg
      ∧ (precommitUpdate hooks cfg true).2.2 = []
      ∧ (∀ c0, cfg = some c0 →
          (precommitUpdate hooks cfg true).2.1 = (precommitLoop true hooks (c0, 0)).2) := by
  cases cfg with
  | none => exact ⟨rfl, rfl, fun c0 h => by simp at h⟩
  | some c0 =>
    unfold precommitUpdate
    dsimp only
    rw [if_neg (by simp)]
    exact ⟨rfl, rfl, fun c0' h => by rw [Option.some.inj h]⟩

/-- C3 fails as stated, for both updaters: dry-run and live-run counts can
differ.  A manifest already reading `"p>=2"` with fetched version `2` gives
`PyprojectTomlUpdater.update` dry count 1, live count 0; a pre-commit
config whose hook revision already reads `"v2"` with fetched version `2`
gives `PreCommitConfigUpdater.update` dry count 1, live count 0.  In both
cases the dry run counts the pattern match while the live run writes
nothing because the substitution leaves the text unchanged. -/
theorem c3_counterexample :
    ((pyUpdate [("p".toList, some "2".toList)] [0]
        (fun g => if g = 0 then some "\"p>=2\"".toList else none) true).2 = 1
      ∧ (pyUpdate [("p".toList, some "2".toList)] [0]
        (fun g => if g = 0 then some "\"p>=2\"".toList else none) false).2 = 0)
    ∧ ((precommitUpdate [("https://u".toList, some "2".toList)]
        (some "- repo: https://u\n  rev: \"v2\"\n".toList) true).2.1 = 1
      ∧ (precommitUpdate [("https://u".toList, some "2".toList)]
        (some "- repo: https://u\n  rev: \"v2\"\n".toList) false).2.1 = 0) := by
  decide

/-- C3 (amended): for both `PyprojectTomlUpdater.update` and
`PreCommitConfigUpdater.update`, a dry run never mutates any file (and
performs no write), and it returns the same count a live run would whenever
the live run's updates neither overlap (each step's match status is
unaffected by the earlier updates of the same run) nor degenerate (no
matching file or hook already carries the fetched version, so every match
changes the text).  The `stepOKb`/`precommitStepOKb` hypotheses state
exactly these conditions. -/
theorem c3_dry_run_amended (F : List (List Char × Option (List Char)))
    (files : List Nat) (fs0 : FSys)
    (hooks : List (List Char × Option (List Char))) (cfg : Option (List Char))
    (hnd : files.Nodup)
    (H : ∀ k, k < F.length → ∀ f ∈ files, stepOKb F files fs0 fs0 k f = true)
    (Hp : ∀ k, k < hooks.length →
      precommitStepOKb hooks (cfg.getD []) (cfg.getD []) k = true) :
    ((pyUpdate F files fs0 false).2 = (pyUpdate F files fs0 true).2
      ∧ (pyUpdate F files fs0 true).1 = fs0)
    ∧ ((precommitUpdate hooks cfg false).2.1 = (precommitUpdate hooks cfg true).2.1
      ∧ (precommitUpdate hooks cfg true).1 = cfg
      ∧ (precommitUpdate hooks cfg true).2.2 = []) := by
  refine ⟨⟨pyUpdate_count_eq files hnd F fs0 fs0 (fun _ => rfl) H,
    pyUpdate_dry_fs F files fs0⟩, ?_, (precommitUpdate_dry hooks cfg).1,
    (precommitUpdate_dry hooks cfg).2.1⟩
  cases cfg with
  | none => rfl
  | some c0 =>
    rw [precommitUpdate_count_live, (precommitUpdate_dry hooks (some c0)).2.2 c0 rfl]
    exact precommitLoop_count_eq hooks c0 c0 0 (by simpa using Hp)

/-- Witness for `c3_dry_run_amended` at a concrete run of both updaters. -/
theorem c3_dry_run_amended_witness :
    (pyUpdate [("p".toList, some "9".toList)] [0, 1]
        (fun g => if g = 0 then some "\"p>=1\"".toList else none) false).2
      = (pyUpdate [("p".toList, some "9".toList)] [0, 1]
        (fun g => if g = 0 then some "\"p>=1\"".toList else none) true).2 :=
  ((c3_dry_run_amended [("p".toList, some "9".toList)] [0, 1]
    (fun g => if g = 0 then some "\"p>=1\"".toList else none)
    [("https://u".toList, some "1.0".toList)] (some "repos: []\n".toList)
    (by decide) (by decide) (by decide)).1).1

/-!
### The post-generation hook: license handling

`post_gen_project.py`'s `__main__` block contains six successive `if`
statements on `cookiecutter.open_source_license`, each moving the chosen
license file to `LICENSE` and unlinking the others.  `Path.rename` and
`Path.unlink` raise if the source file does not exist, so the file
operations are modelled in `Option`.  The project directory is a map from
file name to content.
-/

/-- The generated project's files: name to content, `none` if absent. -/
def PFS := String → Option String

/-- Embedding of `remove_file` (`Path.unlink`): fails if the file is absent. -/
def remove_file (fs : PFS) (k : String) : Option PFS :=
  match fs k with
  | none => none
  | some _ => some (fun j => if j = k then none else fs j)

/-- Embedding of `move_file` (`Path.rename`): fails if the source is absent;
an existing target is replaced. -/
def move_file (fs : PFS) (src tgt : String) : Option PFS :=
  match fs src with
  | none => none
  | some c => some (fun j => if j = tgt then some c else if j = src then none else fs j)

/-- One license branch: move the selected license file to `LICENSE` and
unlink the four others, in the source's order. -/
def licenseBranch (fs : PFS) (src : String) (r1 r2 r3 r4 : String) : Option PFS := do
  let a ← move_file fs src "LICENSE"
  let b ← remove_file a r1
  let c ← remove_file b r2
  let d ← remove_file c r3
  remove_file d r4

/-- The license section of the post-generation hook: the six successive
`if` statements of `__main__`, in source order. -/
def licenseStep (license : String) (fs : PFS) : Option PFS := do
  let fs ← if license = "MIT license" then
      licenseBranch fs "LICENSE_MIT" "LICENSE_BSD" "LICENSE_ISC" "LICENSE_APACHE" "LICENSE_GPL"
    else pure fs
  let fs ← if license = "BSD license" then
      licenseBranch fs "LICENSE_BSD" "LICENSE_MIT" "LICENSE_ISC" "LICENSE_APACHE" "LICENSE_GPL"
    else pure fs
  let fs ← if license = "ISC license" then
      licenseBranch fs "LICENSE_ISC" "LICENSE_MIT" "LICENSE_BSD" "LICENSE_APACHE" "LICENSE_GPL"
    else pure fs
  let fs ← if license = "Apache Software License 2.0" then
      licenseBranch fs "LICENSE_APACHE" "LICENSE_MIT" "LICENSE_BSD" "LICENSE_ISC" "LICENSE_GPL"
    else pure fs
  let fs ← if license = "GNU General Public License v3" then
      licenseBranch fs "LICENSE_GPL" "LICENSE_MIT" "LICENSE_BSD" "LICENSE_ISC" "LICENSE_APACHE"
    else pure fs
  let fs ← if license = "Not open source" then do
      let a ← remove_file fs "LICENSE_GPL"
      let b ← remove_file a "LICENSE_MIT"
      let c ← remove_file b "LICENSE_BSD"
      let d ← remove_file c "LICENSE_ISC"
      remove_file d "LICENSE_APACHE"
    else pure fs
  pure fs

/-- C5: running the post-generation hook's license section with
`open_source_license = "MIT license"` on a project containing the five
generated license files succeeds (no file operation raises), and afterwards
`LICENSE` exists with the former contents of `LICENSE_MIT` while none of
`LICENSE_MIT`, `LICENSE_BSD`, `LICENSE_ISC`, `LICENSE_APACHE`,
`LICENSE_GPL` exist. -/
theorem c5_mit_license (fs : PFS) (m b i a g : String)
    (hm : fs "LICENSE_MIT" = some m) (hb : fs "LICENSE_BSD" = some b)
    (hi : fs "LICENSE_ISC" = some i) (ha : fs "LICENSE_APACHE" = some a)
    (hg : fs "LICENSE_GPL" = some g) :
    (licenseStep "MIT license" fs).isSome = true
      ∧ ((licenseStep "MIT license" fs).bind (fun f => f "LICENSE")) = some m
      ∧ ((licenseStep "MIT license" fs).bind (fun f => f "LICENSE_MIT")) = none
      ∧ ((licenseStep "MIT license" fs).bind (fun f => f "LICENSE_BSD")) = none
      ∧ ((licenseStep "MIT license" fs).bind (fun f => f "LICENSE_ISC")) = none
      ∧ ((licenseStep "MIT license" fs).bind (fun f => f "LICENSE_APACHE")) = none
      ∧ ((licenseStep "MIT license" fs).bind (fun f => f "LICENSE_GPL")) = none := by
  refine ⟨?_, ?_, ?_, ?_, ?_, ?_, ?_⟩ <;>
    simp [licenseStep, licenseBranch, move_file, remove_file, hm, hb, hi, ha, hg]

/-- Witness for `c5_mit_license` on a concrete five-file project. -/
theorem c5_mit_license_witness :
    ((licenseStep "MIT license"
        (fun j => if j = "LICENSE_MIT" then some "MIT" else
          if j = "LICENSE_BSD" then some "BSD" else
          if j = "LICENSE_ISC" then some "ISC" else
          if j = "LICENSE_APACHE" then some "AP" else
          if j = "LICENSE_GPL" then some "GPL" else none)).bind
      (fun f => f "LICENSE")) = some "MIT" :=
  (c5_mit_license _ "MIT" "BSD" "ISC" "AP" "GPL" rfl rfl rfl rfl rfl).2.1

/-!
### The version fetchers

`_fetch_json` returns a parsed JSON document or `None` when the request or
parse fails (only `HTTPError`, `URLError` and `json.JSONDecodeError` are
caught); its result is supplied to the fetchers as an oracle.  The
post-processing in `get_pypi_version`, `get_github_release` and
`get_github_tag` is dynamically typed Python: attribute access on a
non-dict (`data.get("info", {}).get("version")`) or `lstrip` on a
non-string raises `AttributeError`, which none of the fetchers catch, so
the embedding returns `Except Unit Json` where `.error ()` is an uncaught
exception and `.ok .null` is Python `None`. -/

/-- A parsed JSON document / Python object. `null` doubles as Python `None`. -/
inductive Json where
  | null : Json
  | bool (b : Bool) : Json
  | num (n : Int) : Json
  | str (s : String) : Json
  | arr (xs : List Json) : Json
  | obj (fields : List (String × Json)) : Json

/-- `dict.get` lookup; later duplicate keys win, as in a Python dict built
from JSON. -/
def jlookup : List (String × Json) → String → Option Json
  | [], _ => none
  | (k, v) :: rest, key =>
    match jlookup rest key with
    | some r => some r
    | none => if k = key then some v else none

/-- Python truthiness of a JSON-decoded value. -/
def pyTruthy : Json → Bool
  | .null => false
  | .bool b => b
  | .num n => n ≠ 0
  | .str s => s ≠ ""
  | .arr xs => !xs.isEmpty
  | .obj fields => !fields.isEmpty

/-- `str.lstrip("v")`: strip every leading `v`. -/
def lstripV (s : String) : String := String.mk (s.toList.dropWhile (fun c => c = 'v'))

/-- Embedding of `get_pypi_version`, applied to the `_fetch_json` result. -/
def get_pypi_version (data : Option Json) : Except Unit Json :=
  match data with
  | some (.obj fields) =>
    match (jlookup fields "info").getD (.obj []) with
    | .obj f2 =>
      match jlookup f2 "version" with
      | some v => .ok v
      | none => .ok .null
    | _ => .error ()
  | _ => .ok .null

/-- Embedding of `get_github_release`, applied to the `_fetch_json` result. -/
def get_github_release (data : Option Json) : Except Unit Json :=
  match data with
  | some (.obj fields) =>
    let tag := (jlookup fields "tag_name").getD (.str "")
    if pyTruthy tag then
      match tag with
      | .str s => .ok (.str (lstripV s))
      | _ => .error ()
    else .ok .null
  | _ => .ok .null

/-- Embedding of `get_github_tag`, applied to the `_fetch_json` result. -/
def get_github_tag (data : Option Json) : Except Unit Json :=
  match data with
  | some (.arr (first :: _)) =>
    match first with
    | .obj fields =>
      let tag := (jlookup fields "name").getD (.str "")
      if pyTruthy tag then
        match tag with
        | .str s => .ok (.str (lstripV s))
        | _ => .error ()
      else .ok .null
    | _ => .ok .null
  | _ => .ok .null

/-- The value is a string whenever it is truthy (so `lstrip` cannot raise). -/
def strWhenTruthy (t : Json) : Bool :=
  !pyTruthy t || (match t with | .str _ => true | _ => false)

/-- Shape guard under which `get_pypi_version` returns an optional string:
`info`, when the response is a dict, must resolve to a dict whose
`version` entry (if any) is a string or null. -/
def wellShapedPypi (data : Option Json) : Bool :=
  match data with
  | some (.obj fields) =>
    match (jlookup fields "info").getD (.obj []) with
    | .obj f2 =>
      match jlookup f2 "version" with
      | some (.str _) => true
      | some .null => true
      | none => true
      | _ => false
    | _ => false
  | _ => true

/-- Shape guard for `get_github_release`: a truthy `tag_name` is a string. -/
def wellShapedRelease (data : Option Json) : Bool :=
  match data with
  | some (.obj fields) => strWhenTruthy ((jlookup fields "tag_name").getD (.str ""))
  | _ => true

/-- Shape guard for `get_github_tag`: when the first element of the list is
a dict, a truthy `name` is a string. -/
def wellShapedTag (data : Option Json) : Bool :=
  match data with
  | some (.arr (first :: _)) =>
    match first with
    | .obj fields => strWhenTruthy ((jlookup fields "name").getD (.str ""))
    | _ => true
  | _ => true

/-- The fetcher result is a returned optional string (no exception). -/
def isOkNullOrStr : Except Unit Json → Bool
  | .ok .null => true
  | .ok (.str _) => true
  | _ => false

/-- C6 fails as stated: a fetcher can raise on a response of unexpected
shape rather than return `None`.  On the response `{"info": 5}`,
`get_pypi_version` evaluates `data.get("info", {}).get("version")` with a
non-dict `info`, raising `AttributeError` (an uncaught exception, `.error`
in the embedding). -/
theorem c6_counterexample :
    get_pypi_version (some (.obj [("info", .num 5)])) = .error () := rfl

/-- C6 (amended): each version-fetch function returns an optional string —
`None` rather than raising — on fetch failure (`_fetch_json` returning
`None`), on a response whose top-level shape fails the code's explicit
guards, and on any response satisfying the guard conditions that its
dynamic attribute accesses assume (`info` resolving to a dict with a
string-or-null `version`; truthy tag values being strings).  Outside those
conditions the function can raise. -/
theorem c6_amended_fetchers_return_optional_string (data : Option Json)
    (h1 : wellShapedPypi data = true) (h2 : wellShapedRelease data = true)
    (h3 : wellShapedTag data = true) :
    isOkNullOrStr (get_pypi_version data) = true
      ∧ isOkNullOrStr (get_github_release data) = true
      ∧ isOkNullOrStr (get_github_tag data) = true
      ∧ (data = none →
          get_pypi_version data = .ok .null
            ∧ get_github_release data = .ok .null
            ∧ get_github_tag data = .ok .null) := by
  refine ⟨?_, ?_, ?_, ?_⟩
  · match data with
    | none => rfl
    | some .null | some (.bool _) | some (.num _) | some (.str _) | some (.arr _) => rfl
    | some (.obj fields) =>
      unfold get_pypi_version
      unfold wellShapedPypi at h1
      dsimp only at h1 ⊢
      match hinfo : (jlookup fields "info").getD (.obj []) with
      | .null | .bool _ | .num _ | .str _ | .arr _ => rw [hinfo] at h1; simp at h1
      | .obj f2 =>
        rw [hinfo] at h1
        dsimp only at h1 ⊢
        match hv : jlookup f2 "version" with
        | none => rfl
        | some .null => rfl
        | some (.str _) => rfl
        | some (.bool _) | some (.num _) | some (.arr _) | some (.obj _) =>
          rw [hv] at h1; simp at h1
  · match data with
    | none => rfl
    | some .null | some (.bool _) | some (.num _) | some (.str _) | some (.arr _) => rfl
    | some (.obj fields) =>
      unfold get_github_release
      unfold wellShapedRelease strWhenTruthy at h2
      dsimp only at h2 ⊢
      match htag : (jlookup fields "tag_name").getD (.str "") with
      | .str s =>
        by_cases ht : pyTruthy (.str s) = true
        · rw [if_pos ht]; rfl
        · rw [if_neg ht]; rfl
      | .null | .bool _ | .num _ | .arr _ | .obj _ =>
        rw [htag] at h2
        simp only [Bool.or_eq_true, Bool.not_eq_true'] at h2
        rcases h2 with h2 | h2
        · rw [if_neg (by rw [h2]; exact Bool.false_ne_true)]; rfl
        · simp at h2
  · match data with
    | none => rfl
    | some .null | some (.bool _) | some (.num _) | some (.str _) | some (.obj _) => rfl
    | some (.arr []) => rfl
    | some (.arr (first :: restL)) =>
      unfold get_github_tag
      unfold wellShapedTag strWhenTruthy at h3
      dsimp only at h3 ⊢
      match first with
      | .null | .bool _ | .num _ | .str _ | .arr _ => rfl
      | .obj fields =>
        dsimp only at h3 ⊢
        match htag : (jlookup fields "name").getD (.str "") with
        | .str s =>
          by_cases ht : pyTruthy (.str s) = true
          · rw [if_pos ht]; rfl
          · rw [if_neg ht]; rfl
        | .null | .bool _ | .num _ | .arr _ | .obj _ =>
          rw [htag] at h3
          simp only [Bool.or_eq_true, Bool.not_eq_true'] at h3
          rcases h3 with h3 | h3
          · rw [if_neg (by rw [h3]; exact Bool.false_ne_true)]; rfl
          · simp at h3
  · intro hd
    subst hd
    exact ⟨rfl, rfl, rfl⟩

/-- Witness for `c6_amended_fetchers_return_optional_string` at a concrete
well-shaped response. -/
theorem c6_amended_fetchers_witness :
    isOkNullOrStr (get_pypi_version
        (some (.obj [("info", .obj [("version", .str "1.2.3")])]))) = true :=
  (c6_amended_fetchers_return_optional_string
    (some (.obj [("info", .obj [("version", .str "1.2.3")])]))
    (by decide) (by decide) (by decide)).1

/-!
### The pre-generation hook

`pre_gen_project.py` validates the project name against
`^[-a-zA-Z][-a-zA-Z0-9]+$` and the slug against `^[_a-zA-Z][_a-zA-Z0-9]+$`
with `re.match`, calling `sys.exit(1)` on the first failure, before the
`uv python list` check runs.  Note `$` in Python also matches just before a
single trailing newline, which the embedding reproduces. -/

/-- First-character class `[-a-zA-Z]` of the project-name regex. -/
def nameHeadOk (c : Char) : Bool := c = '-' || c.isAlpha

/-- Tail-character class `[-a-zA-Z0-9]` of the project-name regex. -/
def nameTailOk (c : Char) : Bool := c = '-' || c.isAlpha || c.isDigit

/-- First-character class `[_a-zA-Z]` of the project-slug regex. -/
def slugHeadOk (c : Char) : Bool := c = '_' || c.isAlpha

/-- Tail-character class `[_a-zA-Z0-9]` of the project-slug regex. -/
def slugTailOk (c : Char) : Bool := c = '_' || c.isAlpha || c.isDigit

/-- Whole-string match of `[hd][tl]+` (so at least two characters). -/
def coreMatch (hd tl : Char → Bool) : List Char → Bool
  | [] => false
  | c :: rest => hd c && !rest.isEmpty && rest.all tl

/-- `re.match` with an `^...$`-anchored pattern: `$` matches at the end of
the string, or just before a newline that is the last character. -/
def pyFullMatch (hd tl : Char → Bool) (s : List Char) : Bool :=
  coreMatch hd tl s ||
    (match s.getLast? with
     | some c => decide (c = '\n') && coreMatch hd tl s.dropLast
     | none => false)

/-- Embedding of the `PROJECT_NAME_REGEX` check. -/
def matchesProjectName (s : List Char) : Bool := pyFullMatch nameHeadOk nameTailOk s

/-- Embedding of the `PROJECT_SLUG_REGEX` check. -/
def matchesProjectSlug (s : List Char) : Bool := pyFullMatch slugHeadOk slugTailOk s

/-- Outcome of the `subprocess.run(["uv", "python", "list"], ...)` call. -/
inductive UvListOutcome where
  | ok (stdout : List Char) : UvListOutcome
  | calledProcessError : UvListOutcome
  | fileNotFound : UvListOutcome

/-- Does `needle` occur as a contiguous substring of `hay`
(Python's `in` on strings)? -/
def containsSub (needle : List Char) : List Char → Bool
  | [] => needle.isEmpty
  | c :: t => (matchLit needle (c :: t)).isSome || containsSub needle t

/-- Result of running the pre-generation hook: the exit code it terminates
with (if any) and whether the interpreter-version check was reached. -/
structure PreGenResult where
  exitCode : Option Nat
  ranPythonCheck : Bool

/-- Embedding of `pre_gen_project.py`: name validation, then slug
validation, then the uv-managed interpreter check; the first regex failure
exits with status 1 before anything else runs.  A `CalledProcessError` or
`FileNotFoundError` from `uv python list` only warns and proceeds. -/
def preGen (name slug pyVersion : List Char) (uv : UvListOutcome) : PreGenResult :=
  if matchesProjectName name = false then ⟨some 1, false⟩
  else if matchesProjectSlug slug = false then ⟨some 1, false⟩
  else
    match uv with
    | .ok stdout => if containsSub pyVersion stdout then ⟨none, true⟩ else ⟨some 1, true⟩
    | .calledProcessError => ⟨none, true⟩
    | .fileNotFound => ⟨none, true⟩

/-- C8: the pre-generation hook exits with the non-zero status 1 (cancelling
generation) whenever the project name fails `^[-a-zA-Z][-a-zA-Z0-9]+$` or
the project slug fails `^[_a-zA-Z][_a-zA-Z0-9]+$`, and this exit happens
before the interpreter check or any later generation step runs. -/
theorem c8_pre_gen_validation (name slug pyv : List Char) (uv : UvListOutcome)
    (h : matchesProjectName name = false ∨ matchesProjectSlug slug = false) :
    preGen name slug pyv uv = ⟨some 1, false⟩ := by
  unfold preGen
  by_cases hn : matchesProjectName name = false
  · rw [if_pos hn]
  · rcases h with h | h
    · exact absurd h hn
    · rw [if_neg hn, if_pos h]

/-- Witness for `c8_pre_gen_validation`: the name `my_project` (underscore)
fails the name regex. -/
theorem c8_pre_gen_validation_witness :
    preGen "my_project".toList "my_project".toList "3.12".toList
      (.ok "3.12".toList) = ⟨some 1, false⟩ :=
  c8_pre_gen_validation "my_project".toList "my_project".toList "3.12".toList
    (.ok "3.12".toList) (Or.inl (by decide))

/-!
### The post-generation hook: automated GitHub setup

`setup_github_repository` checks its prerequisites (in non-dry-run mode)
before entering the `try` block that runs the external setup commands.  The
environment — template values and the observable outcomes of the external
commands — is an oracle structure, and the function returns its boolean
result together with the list of setup-sequence commands it executed
(`run_command` / direct `subprocess.run` calls), in order.  An empty list
means no external command of the setup sequence ran, hence no file was
mutated and no repository was created. -/

/-- Character class `[a-zA-Z0-9._-]` of the repository-name regex. -/
def repoChar (c : Char) : Bool :=
  c.isAlpha || c.isDigit || c = '.' || c = '_' || c = '-'

/-- `re.match(r"^[a-zA-Z0-9._-]+$", name)` (with `$` also matching before a
single trailing newline). -/
def repoClassMatch (s : List Char) : Bool :=
  (!s.isEmpty && s.all repoChar) ||
    (match s.getLast? with
     | some c => decide (c = '\n') && !s.dropLast.isEmpty && s.dropLast.all repoChar
     | none => false)

/-- Embedding of `validate_repository_name` (the diagnostic message is
dropped; only validity matters to the control flow). -/
def validate_repository_name (name : String) : Bool :=
  if name = "" then false
  else if 100 < name.length then false
  else if name.startsWith "." then false
  else repoClassMatch name.toList

/-- The template values and external-world outcomes observed by
`setup_github_repository`. -/
structure GhEnv where
  projectName : String
  authorHandle : String
  gitDirExists : Bool
  ghInstalled : Bool
  gitInstalled : Bool
  ghAuthenticated : Bool
  gitConfigOk : Bool
  sshProtocol : Bool
  sshAuthOk : Bool
  credHelperOk : Bool
  gitInitOk : Bool
  makeInstallOk : Bool
  ghCreateReturncodeZero : Bool
  ghCreateStderrAlreadyExists : Bool
  gitAddOk : Bool
  statusCmdOk : Bool
  statusDirty : Bool
  gitAdd2Ok : Bool
  commit2Ok : Bool
  remoteExists : Bool
  remoteAddOk : Bool
  pushOk : Bool

/-- The remote URL chosen for the selected protocol. -/
def remoteUrl (env : GhEnv) : String :=
  if env.sshProtocol then
    "git@github.com:" ++ env.authorHandle ++ "/" ++ env.projectName ++ ".git"
  else
    "https://github.com/" ++ env.authorHandle ++ "/" ++ env.projectName ++ ".git"

/-- The tail of the setup sequence after the conditional second commit:
`git remote get-url origin`, conditional `git remote add`, `git push`. -/
def setupTail (env : GhEnv) (t : List (List String)) : Bool × List (List String) :=
  let t1 := t ++ [["git", "remote", "get-url", "origin"]]
  if env.remoteExists then
    let t2 := t1 ++ [["git", "push", "-u", "origin", "main"]]
    if env.pushOk = false then (false, t2) else (true, t2)
  else
    let t2 := t1 ++ [["git", "remote", "add", "origin", remoteUrl env]]
    if env.remoteAddOk = false then (false, t2)
    else
      let t3 := t2 ++ [["git", "push", "-u", "origin", "main"]]
      if env.pushOk = false then (false, t3) else (true, t3)

/-- Embedding of `setup_github_repository`.  In non-dry-run mode the
prerequisite checks run first, each returning `False` with no setup command
executed; the `try` block then runs the sequence, where a failing
`check=True` command raises `CalledProcessError`, is caught, and yields
`False` with the commands run so far.  In dry-run mode commands are only
printed. -/
def setup_github_repository (env : GhEnv) (dry : Bool) : Bool × List (List String) :=
  if dry then (true, [])
  else if validate_repository_name env.projectName = false then (false, [])
  else if env.gitDirExists then (false, [])
  else if env.ghInstalled = false then (false, [])
  else if env.gitInstalled = false then (false, [])
  else if env.ghAuthenticated = false then (false, [])
  else if env.gitConfigOk = false then (false, [])
  else if env.sshProtocol && !env.sshAuthOk then (false, [])
  else
    let t1 := [["git", "init", "-b", "main"]]
    if env.gitInitOk = false then (false, t1)
    else
      let t2 := t1 ++ [["make", "install"]]
      if env.makeInstallOk = false then (false, t2)
      else
        let t3 := t2 ++ [["gh", "repo", "create", env.projectName, "--public", "--source", "."]]
        if env.ghCreateReturncodeZero = false && env.ghCreateStderrAlreadyExists = false then
          (false, t3)
        else
          let t4 := t3 ++ [["git", "add", "."]]
          if env.gitAddOk = false then (false, t4)
          else
            let t5 := t4 ++ [["git", "commit", "-m", "init commit"]]
            let t6 := t5 ++ [["git", "status", "--porcelain"]]
            if env.statusCmdOk = false then (false, t6)
            else if env.statusDirty then
              let t7 := t6 ++ [["git", "add", "."]]
              if env.gitAdd2Ok = false then (false, t7)
              else
                let t8 := t7 ++ [["git", "commit", "-m", "init commit"]]
                if env.commit2Ok = false then (false, t8)
                else setupTail env t8
            else setupTail env t6

/-- C9: in a non-dry-run invocation of `setup_github_repository`, if any
prerequisite check fails — invalid repository name, pre-existing `.git`
directory, missing `gh` or `git`, unauthenticated GitHub CLI, missing git
user configuration, or failed SSH connectivity under the ssh protocol — the
function returns `False` before executing any external command of the setup
sequence (the executed-command trace is empty), so no file is mutated and
no repository is created. -/
theorem c9_prereq_failure_aborts_clean (env : GhEnv)
    (h : validate_repository_name env.projectName = false
      ∨ env.gitDirExists = true
      ∨ env.ghInstalled = false
      ∨ env.gitInstalled = false
      ∨ env.ghAuthenticated = false
      ∨ env.gitConfigOk = false
      ∨ (env.sshProtocol = true ∧ env.sshAuthOk = false)) :
    setup_github_repository env false = (false, []) := by
  unfold setup_github_repository
  rw [if_neg (by simp : ¬(false = true))]
  by_cases h1 : validate_repository_name env.projectName = false
  · rw [if_pos h1]
  · rw [if_neg h1]
    by_cases h2 : env.gitDirExists = true
    · rw [if_pos h2]
    · rw [if_neg h2]
      by_cases h3 : env.ghInstalled = false
      · rw [if_pos h3]
      · rw [if_neg h3]
        by_cases h4 : env.gitInstalled = false
        · rw [if_pos h4]
        · rw [if_neg h4]
          by_cases h5 : env.ghAuthenticated = false
          · rw [if_pos h5]
          · rw [if_neg h5]
            by_cases h6 : env.gitConfigOk = false
            · rw [if_pos h6]
            · rw [if_neg h6]
              rcases h with h | h | h | h | h | h | ⟨ha, hb⟩
              · exact absurd h h1
              · exact absurd h h2
              · exact absurd h h3
              · exact absurd h h4
              · exact absurd h h5
              · exact absurd h h6
              · rw [if_pos (by rw [ha, hb]; rfl)]

/-- Witness for `c9_prereq_failure_aborts_clean`: GitHub CLI missing. -/
theorem c9_prereq_failure_aborts_clean_witness :
    setup_github_repository
      ⟨"demo", "me", false, false, true, true, true, true, true, true,
        true, true, true, false, true, true, false, true, true, false,
        true, true⟩ false = (false, []) :=
  c9_prereq_failure_aborts_clean _ (Or.inr (Or.inr (Or.inl rfl)))

end CookiecutterUv
